import Mathlib

/-!
Verification of the Loopy block-program simulator
(`src/app/loopy/page.tsx`, data model in `src/loopy/levels.ts`).

The embedding mirrors the TypeScript source:
* block kinds, blocks, levels are translated field by field;
* the interpreter loop of `handleRunProgram` becomes `runLoop`, a pure
  recursion over the compiled instruction list with early return on crash;
* workspace pixel coordinates are embedded as rationals and the
  `Math.hypot` minimisation of `findSnapTarget` is expressed through
  squared distances (`hypot` is strictly monotone in the squared norm);
* the JavaScript `while` loops that walk `nextBlockId` pointers carry
  explicit fuel; the fuel equals the walk bound that holds on the
  acyclic block graphs the snapping engine maintains.
-/

namespace Loopy

/-- `TileType` from `levels.ts`. -/
inductive TileType where
  | empty
  | wall
  | start
  | goal
deriving DecidableEq, Repr, Inhabited

/-- The `BlockType` enumeration from `levels.ts`. -/
inductive BlockType where
  | POINT_UP
  | POINT_RIGHT
  | POINT_DOWN
  | POINT_LEFT
  | MOVE_FORWARD
  | MOVE_UP
  | MOVE_DOWN
  | MOVE_LEFT
  | MOVE_RIGHT
  | REPEAT
  | WHEN_RUN_CLICKED
deriving DecidableEq, Repr, Inhabited

/-- `BlockPosition`: pixel coordinates inside the workspace.  The
JavaScript numbers holding pixel offsets are embedded as integers: every
comparison the snapping engine performs on them (differences, absolute
values, squares, `≤`/`<`) is an ordered-ring operation, so nothing below
depends on fractional coordinates. -/
structure BlockPosition where
  x : Int
  y : Int
deriving DecidableEq, Repr, Inhabited

/-- `BlockConnection`: the `next`/`prev` links of a placed block.  Block
ids (strings produced by `crypto.randomUUID` in the source) are embedded
as natural numbers; only equality of ids is ever used. -/
structure BlockConnection where
  nextBlockId : Option Nat
  prevBlockId : Option Nat
deriving DecidableEq, Repr, Inhabited

/-- A placed block.  The source type is a tagged union
(`MoveBlock | RepeatBlock | WhenRunClickedBlock`); at runtime every block
is a record whose `count`/`children` fields are present on `REPEAT`
blocks (and can appear on other blocks through object spread, which the
update handler performs).  We therefore embed one record type where
`count` is optional and `children` defaults to the empty list (a missing
`children` array and an empty one are interchangeable everywhere the
source reads them: it always reads `children || []`). -/
inductive Block where
  | mk (id : Nat) (type : BlockType) (position : BlockPosition)
      (connection : BlockConnection) (count : Option Nat)
      (children : List Block)
deriving Repr

mutual

/-- Decidable equality for `Block` (nested recursion through the
children lists). -/
def Block.decEq : (a b : Block) → Decidable (a = b)
  | .mk i1 t1 p1 c1 n1 ch1, .mk i2 t2 p2 c2 n2 ch2 =>
    if h : i1 = i2 ∧ t1 = t2 ∧ p1 = p2 ∧ c1 = c2 ∧ n1 = n2 then
      match Block.decEqList ch1 ch2 with
      | isTrue hch => isTrue (by
          obtain ⟨h1, h2, h3, h4, h5⟩ := h
          subst h1; subst h2; subst h3; subst h4; subst h5; subst hch; rfl)
      | isFalse hch => isFalse (by intro he; injection he; exact hch (by assumption))
    else
      isFalse (by
        intro he; injection he
        exact h ⟨by assumption, by assumption, by assumption, by assumption,
          by assumption⟩)

def Block.decEqList : (a b : List Block) → Decidable (a = b)
  | [], [] => isTrue rfl
  | [], _ :: _ => isFalse (by simp)
  | _ :: _, [] => isFalse (by simp)
  | x :: xs, y :: ys =>
    match Block.decEq x y, Block.decEqList xs ys with
    | isTrue h1, isTrue h2 => isTrue (by rw [h1, h2])
    | isFalse h1, _ => isFalse (by intro he; injection he; exact h1 (by assumption))
    | _, isFalse h2 => isFalse (by intro he; injection he; exact h2 (by assumption))

end

instance : DecidableEq Block := Block.decEq

def Block.id : Block → Nat
  | .mk i _ _ _ _ _ => i

def Block.type : Block → BlockType
  | .mk _ t _ _ _ _ => t

def Block.position : Block → BlockPosition
  | .mk _ _ p _ _ _ => p

def Block.connection : Block → BlockConnection
  | .mk _ _ _ c _ _ => c

def Block.count : Block → Option Nat
  | .mk _ _ _ _ n _ => n

def Block.children : Block → List Block
  | .mk _ _ _ _ _ ch => ch

/-- `{ ...b, position := p }` -/
def Block.setPosition (b : Block) (p : BlockPosition) : Block :=
  ⟨b.id, b.type, p, b.connection, b.count, b.children⟩

/-- `{ ...b, connection := c }` -/
def Block.setConnection (b : Block) (c : BlockConnection) : Block :=
  ⟨b.id, b.type, b.position, c, b.count, b.children⟩

/-- `{ ...b, children := ch }` -/
def Block.setChildren (b : Block) (ch : List Block) : Block :=
  ⟨b.id, b.type, b.position, b.connection, b.count, ch⟩

/-- `{ ...b, count := n }` -/
def Block.setCount (b : Block) (n : Option Nat) : Block :=
  ⟨b.id, b.type, b.position, b.connection, n, b.children⟩

/-- Grid coordinates used by the interpreter (`{x, y}` of the actor,
start and goal).  Integers: a crash can report a coordinate outside the
grid, e.g. `-1`. -/
structure GridPos where
  x : Int
  y : Int
deriving DecidableEq, Repr, Inhabited

/-- `LevelConfig` from `levels.ts`. -/
structure LevelConfig where
  id : Nat
  name : String
  width : Nat
  height : Nat
  grid : List TileType
  start : GridPos
  goal : GridPos
  allowedBlocks : List BlockType
  optimalBlockCount : Nat
  instructions : String
  hint : String
  initialHeading : Option Int
deriving DecidableEq, Repr

/-- The run-status union of the page component. -/
inductive RunStatus where
  | idle
  | running
  | success
  | crash
deriving DecidableEq, Repr

/-! ### Heading helpers (`headingToDelta`, `getHeadingFromBlockType`) -/

/-- `headingToDelta`: heading in degrees to a `(dx, dy)` unit vector.
The source `switch` has a `default` arm returning `(0, 0)` (reachable
only through unchecked casts), mirrored by the final `else`. -/
def headingToDelta (heading : Int) : Int × Int :=
  if heading = 0 then (0, -1)
  else if heading = 90 then (1, 0)
  else if heading = 180 then (0, 1)
  else if heading = 270 then (-1, 0)
  else (0, 0)

/-- `getHeadingFromBlockType`. -/
def getHeadingFromBlockType (blockType : BlockType) : Option Int :=
  match blockType with
  | .POINT_UP => some 0
  | .POINT_RIGHT => some 90
  | .POINT_DOWN => some 180
  | .POINT_LEFT => some 270
  | _ => none

/-- `applyMoveForward`. -/
def applyMoveForward (pos : GridPos) (heading : Int) : GridPos :=
  let d := headingToDelta heading
  ⟨pos.x + d.1, pos.y + d.2⟩

/-- Legacy `applyMove`. -/
def applyMove (pos : GridPos) (move : BlockType) : GridPos :=
  match move with
  | .MOVE_UP => ⟨pos.x, pos.y - 1⟩
  | .MOVE_DOWN => ⟨pos.x, pos.y + 1⟩
  | .MOVE_LEFT => ⟨pos.x - 1, pos.y⟩
  | .MOVE_RIGHT => ⟨pos.x + 1, pos.y⟩
  | _ => pos

/-- `isOutOfBounds`. -/
def isOutOfBounds (pos : GridPos) (level : LevelConfig) : Bool :=
  decide (pos.x < 0) || decide ((level.width : Int) ≤ pos.x) ||
    decide (pos.y < 0) || decide ((level.height : Int) ≤ pos.y)

/-- `isWall`: reads `level.grid[y * width + x]`.  A negative or
out-of-range index yields `undefined` in JavaScript, which is not
`"wall"`; `List.get?` returns `none` there. -/
def isWall (pos : GridPos) (level : LevelConfig) : Bool :=
  let index : Int := pos.y * (level.width : Int) + pos.x
  if index < 0 then false
  else level.grid.get? index.toNat == some TileType.wall

/-- `calculateStars`. -/
def calculateStars (blockCount : Nat) (optimalCount : Nat) : Nat :=
  if blockCount ≤ optimalCount then 3
  else if blockCount ≤ optimalCount + 2 then 2
  else 1

/-! ### Program expansion (`expandProgram`) -/

/-- `expandProgram(blocks, allBlocks)`: flattens a chain of blocks into
the primitive instruction stream; a `REPEAT` block contributes its
(recursively expanded) children `count` times.  The `allBlocks`
parameter is carried but, as in the source, never read. -/
def expandProgram : List Block → List Block → List BlockType
  | [], _ => []
  | .mk _i ty _pos _conn cnt ch :: bs, all =>
    (if ty = BlockType.REPEAT then
      (List.replicate (cnt.getD 0) (expandProgram ch all)).flatten
    else [ty]) ++ expandProgram bs all
termination_by blocks _ => sizeOf blocks
decreasing_by
  all_goals simp
  all_goals omega

/-! ### The interpreter loop of `handleRunProgram` -/

/-- Result of the `for` loop in `handleRunProgram`: either an early
return with status `crash` at the reported (possibly invalid) position,
or falling through the whole instruction list. -/
inductive LoopResult where
  | crashed (pos : GridPos) (heading : Int)
  | finished (pos : GridPos) (heading : Int)
deriving DecidableEq, Repr

/-- The instruction-processing loop, one constructor case per branch of
the source loop body: heading-set instructions update the heading,
`MOVE_FORWARD` moves along the heading and crashes on a wall or
out-of-bounds tile, legacy moves use a fixed direction and force the
heading, anything else is skipped. -/
def runLoop : List BlockType → GridPos → Int → LevelConfig → LoopResult
  | [], pos, heading, _ => .finished pos heading
  | step :: rest, pos, heading, level =>
    match getHeadingFromBlockType step with
    | some newHeading => runLoop rest pos newHeading level
    | none =>
      if step = BlockType.MOVE_FORWARD then
        let newPos := applyMoveForward pos heading
        if isOutOfBounds newPos level || isWall newPos level then
          .crashed newPos heading
        else
          runLoop rest newPos heading level
      else if step = BlockType.MOVE_UP ∨ step = BlockType.MOVE_DOWN ∨
          step = BlockType.MOVE_LEFT ∨ step = BlockType.MOVE_RIGHT then
        let newPos := applyMove pos step
        let newHeading : Int :=
          if step = BlockType.MOVE_LEFT then 270
          else if step = BlockType.MOVE_RIGHT then 90
          else if step = BlockType.MOVE_UP then 0
          else 180
        if isOutOfBounds newPos level || isWall newPos level then
          .crashed newPos newHeading
        else
          runLoop rest newPos newHeading level
      else
        runLoop rest pos heading level

/-- Terminal status after the loop: an early return crashed; otherwise
the goal comparison (`currentPos.x === goal.x && currentPos.y ===
goal.y`) decides between `success` and `crash`. -/
def runFrom (steps : List BlockType) (pos : GridPos) (heading : Int)
    (level : LevelConfig) : GridPos × Int × RunStatus :=
  match runLoop steps pos heading level with
  | .crashed p h => (p, h, RunStatus.crash)
  | .finished p h =>
    (p, h,
      if p.x = level.goal.x ∧ p.y = level.goal.y then RunStatus.success
      else RunStatus.crash)

/-- A run request: position and heading are re-derived from the level
(`level.start`, `level.initialHeading ?? 90`). -/
def runOutcome (steps : List BlockType) (level : LevelConfig) :
    GridPos × Int × RunStatus :=
  runFrom steps level.start (level.initialHeading.getD 90) level

/-! ### Snapping constants -/

def BLOCK_HEIGHT : Int := 40
def SNAP_VERTICAL_DISTANCE : Int := 15
def SNAP_HORIZONTAL_TOLERANCE : Int := 40
def BLOCK_SPACING : Int := 0

/-! ### `findSnapTarget` -/

/-- The inner `while` loop of `findSnapTarget`: starting from an already
looked-up block, follow `nextBlockId` pointers and report whether some
pointer equals `draggedId`.  The source loop carries no visited set; the
`fuel` argument bounds the walk (on the acyclic graphs the snapping
engine maintains, `blocks.length` hops always suffice, and on a cyclic
graph the source would not terminate at all). -/
def isChildWalk (blocks : List Block) (draggedId : Nat) :
    Nat → Option Block → Bool
  | _, none => false
  | 0, some _ => false
  | fuel + 1, some current =>
    match current.connection.nextBlockId with
    | none => false
    | some nid =>
      if nid = draggedId then true
      else isChildWalk blocks draggedId fuel
        (blocks.find? (fun b => b.id = nid))

/-- The candidate loop of `findSnapTarget`; `best`/`bestDistance`
accumulate the running winner.  `bestDistance` is the squared distance
(`none` plays the role of the initial `Infinity`); `Math.hypot (dx, dy) <
Math.hypot (dx', dy')` holds exactly when the squared distances compare
the same way. -/
def findSnapTargetAux (blocks : List Block) (draggedId : Nat)
    (draggedPosition : BlockPosition) :
    List Block → Option Block → Option Int → Option Block
  | [], best, _ => best
  | candidate :: rest, best, bestDistance =>
    if candidate.id = draggedId then
      findSnapTargetAux blocks draggedId draggedPosition rest best bestDistance
    else if isChildWalk blocks draggedId blocks.length
        (blocks.find? (fun b => b.id = candidate.id)) then
      findSnapTargetAux blocks draggedId draggedPosition rest best bestDistance
    else
      let dx := draggedPosition.x - candidate.position.x
      let dy := draggedPosition.y - (candidate.position.y + BLOCK_HEIGHT)
      if |dy| ≤ SNAP_VERTICAL_DISTANCE ∧ |dx| ≤ SNAP_HORIZONTAL_TOLERANCE then
        let distance := dx * dx + dy * dy
        if match bestDistance with
            | none => true
            | some bd => decide (distance < bd) then
          findSnapTargetAux blocks draggedId draggedPosition rest
            (some candidate) (some distance)
        else
          findSnapTargetAux blocks draggedId draggedPosition rest best
            bestDistance
      else
        findSnapTargetAux blocks draggedId draggedPosition rest best
          bestDistance

/-- `findSnapTarget(blocks, draggedId, draggedPosition)`. -/
def findSnapTarget (blocks : List Block) (draggedId : Nat)
    (draggedPosition : BlockPosition) : Option Block :=
  findSnapTargetAux blocks draggedId draggedPosition blocks none none

/-! ### `applySnapping` -/

/-- The first `blocks.map` of `applySnapping`: clear every connection
edge touching `movedId`.  The branch order matches the source's early
returns: a block whose `next` is the moved id only has its `next`
cleared, then `prev`, then repeat children filtering (only when the
filter removes something), then the moved block itself. -/
def cleanConnections (blocks : List Block) (movedId : Nat) : List Block :=
  blocks.map fun b =>
    if b.connection.nextBlockId = some movedId then
      b.setConnection ⟨none, b.connection.prevBlockId⟩
    else if b.connection.prevBlockId = some movedId then
      b.setConnection ⟨b.connection.nextBlockId, none⟩
    else if b.type = BlockType.REPEAT ∧
        (b.children.filter (fun child => child.id ≠ movedId)).length ≠
          b.children.length then
      b.setChildren (b.children.filter (fun child => child.id ≠ movedId))
    else if b.id = movedId then
      b.setConnection ⟨none, none⟩
    else b

/-- The recursive `findParentRepeatBlock` helper inside `applySnapping`:
follow `prev` pointers until a `REPEAT` block is found.  The source
recursion has no cycle guard; `fuel` bounds it, sufficient on the
graphs the engine maintains. -/
def findParentRepeatBlock (blocks : List Block) :
    Nat → Block → Option Block
  | 0, _ => none
  | fuel + 1, block =>
    match block.connection.prevBlockId with
    | none => none
    | some pid =>
      match blocks.find? (fun b => b.id = pid) with
      | none => none
      | some parent =>
        if parent.type = BlockType.REPEAT then some parent
        else findParentRepeatBlock blocks fuel parent

/-- `applySnapping(blocks, movedId, draggedPosition?)`. -/
def applySnapping (blocks : List Block) (movedId : Nat)
    (draggedPosition : Option BlockPosition) : List Block :=
  match blocks.find? (fun b => b.id = movedId) with
  | none => blocks
  | some moved =>
    if moved.type = BlockType.WHEN_RUN_CLICKED then
      -- the entry marker never snaps; only its position is updated
      blocks.map fun b =>
        if b.id = movedId then
          match draggedPosition with
          | some p => b.setPosition p
          | none => b
        else b
    else
      let currentPosition := draggedPosition.getD moved.position
      let updatedBlocks := cleanConnections blocks movedId
      match findSnapTarget updatedBlocks movedId currentPosition with
      | none =>
        updatedBlocks.map fun b =>
          if b.id = movedId then
            match draggedPosition with
            | some p => b.setPosition p
            | none => b
          else b
      | some bestTarget =>
        let snappedX := bestTarget.position.x
        let snappedY := bestTarget.position.y + BLOCK_HEIGHT + BLOCK_SPACING
        if bestTarget.type = BlockType.REPEAT then
          -- blocks snapped below a REPEAT go into its children
          updatedBlocks.map fun b =>
            if b.id = movedId then
              ⟨b.id, b.type, ⟨snappedX, snappedY⟩,
                ⟨none, some bestTarget.id⟩, b.count, b.children⟩
            else if b.id = bestTarget.id then
              let currentChildren :=
                if b.type = BlockType.REPEAT then b.children else []
              if currentChildren.any (fun child => child.id = movedId) then b
              else b.setChildren (currentChildren ++ [moved])
            else b
        else
          match findParentRepeatBlock updatedBlocks updatedBlocks.length
              bestTarget with
          | some parentRepeat =>
            -- bestTarget lives in a REPEAT body: append to that body
            updatedBlocks.map fun b =>
              if b.id = movedId then
                ⟨b.id, b.type, ⟨snappedX, snappedY⟩,
                  ⟨none, some bestTarget.id⟩, b.count, b.children⟩
              else if b.id = parentRepeat.id then
                let currentChildren :=
                  if b.type = BlockType.REPEAT then b.children else []
                if currentChildren.any (fun child => child.id = movedId) then b
                else b.setChildren (currentChildren ++ [moved])
              else b
          | none =>
            -- splice into the top-level chain directly below bestTarget
            let existingNextId := bestTarget.connection.nextBlockId
            updatedBlocks.map fun b =>
              if b.id = movedId then
                ⟨b.id, b.type, ⟨snappedX, snappedY⟩,
                  ⟨existingNextId, some bestTarget.id⟩, b.count, b.children⟩
              else if b.id = bestTarget.id then
                b.setConnection ⟨some movedId, b.connection.prevBlockId⟩
              else if (match existingNextId with
                  | some nid => decide (b.id = nid)
                  | none => false) then
                b.setConnection ⟨b.connection.nextBlockId, some movedId⟩
              else b

/-! ### Block creation and the workspace operations -/

/-- `createBlockInstance(blockType, position)`.  The source draws a fresh
UUID; here the caller passes the id (`freshId` below provides one). -/
def createBlockInstance (id : Nat) (blockType : BlockType)
    (position : BlockPosition) : Block :=
  if blockType = BlockType.REPEAT then
    ⟨id, blockType, position, ⟨none, none⟩, some 2, []⟩
  else
    ⟨id, blockType, position, ⟨none, none⟩, none, []⟩

/-- A fresh id: strictly larger than every id in the workspace (models
`crypto.randomUUID`, whose only relevant property is freshness). -/
def freshId (blocks : List Block) : Nat :=
  (blocks.map Block.id).foldr max 0 + 1

/-- `initializeWorkspace()`: a single entry-marker block. -/
def initializeWorkspace : List Block :=
  [createBlockInstance 0 BlockType.WHEN_RUN_CLICKED ⟨20, 20⟩]

/-- The user-reachable mutations of the block graph: creating a block
(palette click or palette drop before snapping) and running the snapping
engine on a block (attach / move). -/
inductive WorkspaceOp where
  | create (blockType : BlockType) (position : BlockPosition)
  | snap (movedId : Nat) (draggedPosition : Option BlockPosition)

def applyOp (blocks : List Block) : WorkspaceOp → List Block
  | .create ty pos => blocks ++ [createBlockInstance (freshId blocks) ty pos]
  | .snap movedId dp => applySnapping blocks movedId dp

/-- The workspace after a finite sequence of creations and snaps,
starting from the entry-marker-only workspace. -/
def runOps (ops : List WorkspaceOp) : List Block :=
  ops.foldl applyOp initializeWorkspace

/-! ### The attached chain and scoring input of `handleRunProgram` -/

/-- The chain-collection `while` loop of `handleRunProgram`: follow
`nextBlockId` pointers, stopping at a missing block or an already
visited id.  Each iteration of the source loop adds one fresh id from
the program to `visited`, so `program.length` fuel reproduces it
exactly. -/
def collectChain (program : List Block) :
    Nat → List Nat → Option Block → List Block
  | _, _, none => []
  | 0, _, some _ => []
  | fuel + 1, visited, some current =>
    if current.id ∈ visited then []
    else
      current ::
        collectChain program fuel (current.id :: visited)
          (match current.connection.nextBlockId with
            | some nid => program.find? (fun b => b.id = nid)
            | none => none)

/-- The blocks attached to the entry marker, in chain order. -/
def collectAttached (program : List Block) : List Block :=
  match program.find? (fun b => b.type = BlockType.WHEN_RUN_CLICKED) with
  | none => []
  | some whenRunClickedBlock =>
    match whenRunClickedBlock.connection.nextBlockId with
    | none => []
    | some firstAttachedId =>
      collectChain program program.length []
        (program.find? (fun b => b.id = firstAttachedId))

/-- The count `handleRunProgram` passes to `calculateStars`. -/
def usedCount (program : List Block) : Nat :=
  (collectAttached program).length

/-- The star rating computed on a successful run
(`calculateStars(attachedBlocks.length, level.optimalBlockCount)`). -/
def runStars (program : List Block) (level : LevelConfig) : Nat :=
  calculateStars (usedCount program) level.optimalBlockCount

/-! ### `handleUpdateBlock` -/

/-- `Partial<Block>`: the update patch.  Each field is present or
absent. -/
structure BlockUpdates where
  id : Option Nat := none
  type : Option BlockType := none
  position : Option BlockPosition := none
  connection : Option BlockConnection := none
  count : Option Nat := none
  children : Option (List Block) := none

/-- Object spread `{ ...block, ...updates }`: fields present in the
patch win. -/
def spreadBlock (b : Block) (u : BlockUpdates) : Block :=
  ⟨u.id.getD b.id, u.type.getD b.type, u.position.getD b.position,
    u.connection.getD b.connection, u.count.or b.count,
    u.children.getD b.children⟩

/-- The program transformation of `handleUpdateBlock(id, updates)`:
on the matching block, a `count` patch on a `REPEAT` block updates only
the count; otherwise the whole patch is spread onto the block. -/
def handleUpdateBlock (program : List Block) (id : Nat)
    (updates : BlockUpdates) : List Block :=
  program.map fun block =>
    if block.id = id then
      if block.type = BlockType.REPEAT ∧ updates.count.isSome then
        block.setCount updates.count
      else spreadBlock block updates
    else block

/-! ### Derived notions used to state the claims -/

/-- The `next` edge relation on block ids: `a` points at `b`. -/
def NextEdge (s : List Block) (a b : Nat) : Prop :=
  ∃ blk ∈ s, blk.id = a ∧ blk.connection.nextBlockId = some b

/-- No id is reachable from itself through `next` pointers. -/
def AcyclicNext (s : List Block) : Prop :=
  ∀ a, ¬ Relation.TransGen (NextEdge s) a a

/-- Bounded traversal of the `next` chain starting at an optional id:
look the id up, emit it, follow its `next` pointer; `fuel` bounds the
number of steps. -/
def chainIds (s : List Block) : Nat → Option Nat → List Nat
  | _, none => []
  | 0, some _ => []
  | fuel + 1, some i =>
    match s.find? (fun b => b.id = i) with
    | none => []
    | some b => i :: chainIds s fuel b.connection.nextBlockId

/-- The id attached directly below the entry marker, if any. -/
def entryNextId (s : List Block) : Option Nat :=
  (s.find? (fun b => b.type = BlockType.WHEN_RUN_CLICKED)).bind
    (fun w => w.connection.nextBlockId)

/-- Eligibility of a snap candidate, read off the loop of
`findSnapTarget`: not the dragged block, the dragged id is not reachable
from it along `next` pointers, and both distance tolerances hold. -/
def snapEligible (blocks : List Block) (draggedId : Nat)
    (dp : BlockPosition) (c : Block) : Prop :=
  c.id ≠ draggedId ∧
  isChildWalk blocks draggedId blocks.length
    (blocks.find? (fun b => b.id = c.id)) = false ∧
  |dp.y - (c.position.y + BLOCK_HEIGHT)| ≤ SNAP_VERTICAL_DISTANCE ∧
  |dp.x - c.position.x| ≤ SNAP_HORIZONTAL_TOLERANCE

instance (blocks : List Block) (draggedId : Nat) (dp : BlockPosition)
    (c : Block) : Decidable (snapEligible blocks draggedId dp c) := by
  unfold snapEligible; infer_instance

/-- The squared snap distance; `Math.hypot dx dy` is strictly monotone
in it, so minimising one minimises the other. -/
def snapDistSq (dp : BlockPosition) (c : Block) : Int :=
  (dp.x - c.position.x) * (dp.x - c.position.x) +
    (dp.y - (c.position.y + BLOCK_HEIGHT)) *
      (dp.y - (c.position.y + BLOCK_HEIGHT))

/-! ### Concrete data (levels 1 and 3 of `levels.ts`, sample programs) -/

/-- Level 1, "First Crawl". -/
def levelFirstCrawl : LevelConfig :=
  { id := 1, name := "First Crawl", width := 5, height := 3,
    grid := [TileType.empty, .empty, .empty, .empty, .empty,
             .start, .empty, .empty, .empty, .goal,
             .empty, .empty, .empty, .empty, .empty],
    start := ⟨0, 1⟩, goal := ⟨4, 1⟩,
    allowedBlocks := [BlockType.POINT_RIGHT, BlockType.MOVE_FORWARD],
    optimalBlockCount := 5,
    instructions := "Help Loopy reach the apple!", hint := "",
    initialHeading := some 270 }

/-- Level 3, "Around the Rock" (walls at `(2,0)` and `(2,1)`). -/
def levelAroundTheRock : LevelConfig :=
  { id := 3, name := "Around the Rock", width := 5, height := 3,
    grid := [TileType.empty, .empty, .wall, .empty, .empty,
             .start, .empty, .wall, .empty, .goal,
             .empty, .empty, .empty, .empty, .empty],
    start := ⟨0, 1⟩, goal := ⟨4, 1⟩,
    allowedBlocks := [BlockType.POINT_UP, BlockType.POINT_RIGHT,
      BlockType.POINT_DOWN, BlockType.POINT_LEFT, BlockType.MOVE_FORWARD],
    optimalBlockCount := 8, instructions := "", hint := "",
    initialHeading := none }

/-- Entry marker of the scenario-C program, pointing at the
point-right block. -/
def entryBlockC : Block :=
  ⟨0, .WHEN_RUN_CLICKED, ⟨20, 20⟩, ⟨some 1, none⟩, none, []⟩

/-- `point-right` block of the scenario-C program. -/
def pointRightBlockC : Block :=
  ⟨1, .POINT_RIGHT, ⟨20, 60⟩, ⟨some 2, some 0⟩, none, []⟩

/-- The `move-forward` block nested in the repeat of scenario C. -/
def moveForwardChildC : Block :=
  ⟨3, .MOVE_FORWARD, ⟨24, 104⟩, ⟨none, some 2⟩, none, []⟩

/-- `repeat(count = 4)` block of scenario C, holding one
`move-forward` child. -/
def repeatFourBlockC : Block :=
  ⟨2, .REPEAT, ⟨20, 100⟩, ⟨none, some 1⟩, some 4, [moveForwardChildC]⟩

/-- Scenario-C workspace: entry → point-right → repeat(4){move-forward}. -/
def programC : List Block := [entryBlockC, pointRightBlockC, repeatFourBlockC]

/-- Entry marker of the `W → A → B` chain used for the snapping claims. -/
def chainEntry : Block :=
  ⟨0, .WHEN_RUN_CLICKED, ⟨20, 20⟩, ⟨some 1, none⟩, none, []⟩

/-- Block `A` of the `W → A → B` chain. -/
def chainA : Block :=
  ⟨1, .MOVE_FORWARD, ⟨20, 60⟩, ⟨some 2, some 0⟩, none, []⟩

/-- Block `B` of the `W → A → B` chain (a descendant of `A`). -/
def chainB : Block :=
  ⟨2, .MOVE_FORWARD, ⟨20, 100⟩, ⟨none, some 1⟩, none, []⟩

/-- A block whose `next` chain reaches the dragged block: first in the
list and distance-eligible, yet skipped by `findSnapTarget`. -/
def ancestorBlock : Block :=
  ⟨1, .MOVE_FORWARD, ⟨0, 0⟩, ⟨some 3, none⟩, none, []⟩

/-- A second candidate at the same distance as `ancestorBlock`. -/
def otherBlock : Block :=
  ⟨2, .MOVE_FORWARD, ⟨0, 0⟩, ⟨none, none⟩, none, []⟩

/-- The dragged block of the `findSnapTarget` counterexample. -/
def draggedBlock : Block :=
  ⟨3, .MOVE_FORWARD, ⟨0, 200⟩, ⟨none, some 1⟩, none, []⟩

/-- A lone `move-forward` block (not a repeat), target of a `count`
patch. -/
def soloMoveForward : Block :=
  ⟨7, .MOVE_FORWARD, ⟨40, 40⟩, ⟨none, none⟩, none, []⟩

/-! ## Claim theorems -/

/-- C7: `calculateStars` returns 3 stars when `usedCount ≤ par`, 2 stars
when `par < usedCount ≤ par + 2`, and 1 star otherwise, for every
`usedCount` and `par`. -/
theorem calculateStars_thresholds (u p : Nat) :
    (u ≤ p → calculateStars u p = 3) ∧
    (p < u → u ≤ p + 2 → calculateStars u p = 2) ∧
    (p + 2 < u → calculateStars u p = 1) := by
  unfold calculateStars
  refine ⟨fun h => by simp [h], fun h1 h2 => ?_, fun h => ?_⟩
  · rw [if_neg (by omega), if_pos h2]
  · rw [if_neg (by omega), if_neg (by omega)]

/-- Witness for C7 at `par = 5` and `usedCount ∈ {5, 7, 8}`. -/
theorem calculateStars_thresholds_witness :
    calculateStars 5 5 = 3 ∧ calculateStars 7 5 = 2 ∧ calculateStars 8 5 = 1 :=
  ⟨(calculateStars_thresholds 5 5).1 (by norm_num),
   (calculateStars_thresholds 7 5).2.1 (by norm_num) (by norm_num),
   (calculateStars_thresholds 8 5).2.2 (by norm_num)⟩

/-- C3: the expansion function maps a repeat block to the expansion of
its child list appended exactly `count` times, and any other block to
its own kind appended once; in particular the chain
`[point-right, repeat(count = 4){move-forward}]` expands to
`[point-right, move-forward, move-forward, move-forward,
move-forward]`. -/
theorem expandProgram_spec :
    (∀ (b : Block) (bs all : List Block),
      expandProgram (b :: bs) all =
        (if b.type = BlockType.REPEAT then
          (List.replicate (b.count.getD 0) (expandProgram b.children all)).flatten
        else [b.type]) ++ expandProgram bs all) ∧
    expandProgram [pointRightBlockC, repeatFourBlockC] [] =
      [BlockType.POINT_RIGHT, .MOVE_FORWARD, .MOVE_FORWARD, .MOVE_FORWARD,
        .MOVE_FORWARD] := by
  constructor
  · rintro ⟨i, ty, pos, conn, cnt, ch⟩ bs all
    rw [expandProgram.eq_def]
    rfl
  · simp [pointRightBlockC, repeatFourBlockC, moveForwardChildC, Block.type,
      Block.count, Block.children, List.replicate, expandProgram]

/-- C1: a `move-forward` whose target tile is out of bounds or a wall
updates the position to that invalid tile, crashes, and skips every
remaining instruction — for any tail of instructions; in particular any
target exactly one tile outside the grid on any of the four sides
crashes at that out-of-bounds coordinate. -/
theorem moveForward_crash_policy (rest : List BlockType) (pos : GridPos)
    (heading : Int) (level : LevelConfig) :
    ((isOutOfBounds (applyMoveForward pos heading) level ||
        isWall (applyMoveForward pos heading) level) = true →
      runFrom (BlockType.MOVE_FORWARD :: rest) pos heading level =
        (applyMoveForward pos heading, heading, RunStatus.crash)) ∧
    ((applyMoveForward pos heading).x = -1 ∨
        (applyMoveForward pos heading).x = (level.width : Int) ∨
        (applyMoveForward pos heading).y = -1 ∨
        (applyMoveForward pos heading).y = (level.height : Int) →
      runFrom (BlockType.MOVE_FORWARD :: rest) pos heading level =
        (applyMoveForward pos heading, heading, RunStatus.crash)) := by
  have key : (isOutOfBounds (applyMoveForward pos heading) level ||
      isWall (applyMoveForward pos heading) level) = true →
      runFrom (BlockType.MOVE_FORWARD :: rest) pos heading level =
        (applyMoveForward pos heading, heading, RunStatus.crash) := by
    intro h
    simp [runFrom, runLoop, getHeadingFromBlockType, h]
  refine ⟨key, fun h => key ?_⟩
  have hoob : isOutOfBounds (applyMoveForward pos heading) level = true := by
    unfold isOutOfBounds
    rcases h with h | h | h | h <;> simp [h]
  simp [hoob]

/-- Witness for C1: on level 1 the initial heading is 270°, so an
immediate `move-forward` lands at `(-1, 1)`, one tile left of the grid,
and the run crashes there. -/
theorem moveForward_crash_policy_witness :
    (isOutOfBounds (applyMoveForward ⟨0, 1⟩ 270) levelFirstCrawl ||
      isWall (applyMoveForward ⟨0, 1⟩ 270) levelFirstCrawl) = true ∧
    runFrom [BlockType.MOVE_FORWARD] ⟨0, 1⟩ 270 levelFirstCrawl =
      (⟨-1, 1⟩, 270, RunStatus.crash) := by
  refine ⟨by decide, ?_⟩
  exact (moveForward_crash_policy [] ⟨0, 1⟩ 270 levelFirstCrawl).1 (by decide)

/-- C2: when the instruction sequence runs to completion without
crashing, the run succeeds exactly when the final position equals the
level's goal and crashes otherwise; in every case the terminal status is
`success` or `crash`, never anything else. -/
theorem run_success_iff_goal (steps : List BlockType) (pos : GridPos)
    (heading : Int) (level : LevelConfig) :
    (∀ p h, runLoop steps pos heading level = .finished p h →
      ((runFrom steps pos heading level = (p, h, RunStatus.success) ↔
          (p.x = level.goal.x ∧ p.y = level.goal.y)) ∧
        (¬(p.x = level.goal.x ∧ p.y = level.goal.y) →
          runFrom steps pos heading level = (p, h, RunStatus.crash)))) ∧
    ((runFrom steps pos heading level).2.2 = RunStatus.success ∨
      (runFrom steps pos heading level).2.2 = RunStatus.crash) := by
  constructor
  · intro p h hfin
    unfold runFrom
    rw [hfin]
    by_cases hg : p.x = level.goal.x ∧ p.y = level.goal.y
    · simp [hg]
    · simp [hg]
  · unfold runFrom
    cases hr : runLoop steps pos heading level with
    | crashed p h => simp
    | finished p h =>
      by_cases hg : p.x = level.goal.x ∧ p.y = level.goal.y <;> simp [hg]

/-- Witness for C2: scenario A on level 1 finishes at the goal `(4, 1)`
and the status is `success`. -/
theorem run_success_iff_goal_witness :
    runLoop [BlockType.POINT_RIGHT, .MOVE_FORWARD, .MOVE_FORWARD,
        .MOVE_FORWARD, .MOVE_FORWARD] ⟨0, 1⟩ 270 levelFirstCrawl =
      .finished ⟨4, 1⟩ 90 ∧
    runFrom [BlockType.POINT_RIGHT, .MOVE_FORWARD, .MOVE_FORWARD,
        .MOVE_FORWARD, .MOVE_FORWARD] ⟨0, 1⟩ 270 levelFirstCrawl =
      (⟨4, 1⟩, 90, RunStatus.success) := by
  refine ⟨by decide, ?_⟩
  exact ((run_success_iff_goal [BlockType.POINT_RIGHT, .MOVE_FORWARD,
    .MOVE_FORWARD, .MOVE_FORWARD, .MOVE_FORWARD] ⟨0, 1⟩ 270
    levelFirstCrawl).1 ⟨4, 1⟩ 90 (by decide)).1.mpr (by decide)

/-- C9 counterexample: a `count` patch aimed at a block that is not a
repeat is not rejected — the patch is spread onto the block, which
afterwards carries `count = 5`, so the program is not returned
unchanged. -/
theorem updateBlock_count_patch_not_noop :
    soloMoveForward.type ≠ BlockType.REPEAT ∧
    handleUpdateBlock [soloMoveForward] soloMoveForward.id
        { count := some 5 } ≠ [soloMoveForward] := by
  refine ⟨by decide, fun h => ?_⟩
  have h1 : (handleUpdateBlock [soloMoveForward] soloMoveForward.id
      { count := some 5 }).map Block.count = [some 5] := rfl
  rw [h] at h1
  simp [soloMoveForward, Block.count] at h1

/-- C9 corrected: the update is a silent no-op when the id matches no
block; but a patch whose parameter is not accepted by the matched
block's kind is not rejected — it is spread onto the block, modifying
it (in particular a `count` patch on a non-repeat block stores that
count on the block). -/
theorem updateBlock_unknown_id_noop :
    (∀ (program : List Block) (id : Nat) (updates : BlockUpdates),
      (∀ b ∈ program, b.id ≠ id) →
      handleUpdateBlock program id updates = program) ∧
    (∀ (b : Block) (updates : BlockUpdates), b.type ≠ BlockType.REPEAT →
      handleUpdateBlock [b] b.id updates = [spreadBlock b updates]) ∧
    handleUpdateBlock [soloMoveForward] soloMoveForward.id
        { count := some 5 } = [soloMoveForward.setCount (some 5)] := by
  refine ⟨?_, ?_, rfl⟩
  · intro program id updates
    induction program with
    | nil => intro _; rfl
    | cons b bs ih =>
      intro h
      have hb : ¬ b.id = id := h b (List.mem_cons_self b bs)
      have htail := ih (fun x hx => h x (List.mem_cons_of_mem b hx))
      simp only [handleUpdateBlock, List.map_cons, if_neg hb]
      simp only [handleUpdateBlock] at htail
      rw [htail]
  · intro b updates hneq
    simp [handleUpdateBlock, hneq]

/-- Witness for C9 (corrected): the two hypothesis-bearing conjuncts at
concrete inputs — updating an id absent from `[soloMoveForward]` is a
no-op, and any patch on the non-repeat `soloMoveForward` is spread. -/
theorem updateBlock_unknown_id_noop_witness :
    handleUpdateBlock [soloMoveForward] 99 { count := some 5 } =
      [soloMoveForward] ∧
    handleUpdateBlock [soloMoveForward] soloMoveForward.id
        { position := some ⟨1, 2⟩ } =
      [spreadBlock soloMoveForward { position := some ⟨1, 2⟩ }] :=
  ⟨updateBlock_unknown_id_noop.1 [soloMoveForward] 99 _
      (by intro b hb; simp at hb; subst hb; decide),
   updateBlock_unknown_id_noop.2.1 soloMoveForward _ (by decide)⟩

/-- C10 counterexample: a patch whose `children` field is present
replaces the matched repeat block's children list, so the update does
not leave every repeat's children unchanged. -/
theorem updateBlock_children_patch_changes_children :
    repeatFourBlockC.type = BlockType.REPEAT ∧
    repeatFourBlockC.children = [moveForwardChildC] ∧
    (handleUpdateBlock [repeatFourBlockC] repeatFourBlockC.id
        { children := some [] }).map Block.children ≠
      [repeatFourBlockC].map Block.children := by
  refine ⟨by decide, rfl, fun h => ?_⟩
  have h1 : (handleUpdateBlock [repeatFourBlockC] repeatFourBlockC.id
      { children := some [] }).map Block.children = [[]] := rfl
  rw [h1] at h
  have h2 : [repeatFourBlockC].map Block.children = [[moveForwardChildC]] := rfl
  rw [h2] at h
  simp at h

/-- C10 corrected: for every patch that does not set `children`, the
update leaves the children list of every block in the program unchanged
— it only rewrites the matched top-level entry and never recurses into
children, so a nested copy of the matched block inside some repeat's
children (the copy the expansion function reads) is untouched. -/
theorem updateBlock_preserves_children (program : List Block) (id : Nat)
    (updates : BlockUpdates) (h : updates.children = none) :
    (handleUpdateBlock program id updates).map Block.children =
      program.map Block.children := by
  unfold handleUpdateBlock
  rw [List.map_map]
  apply List.map_congr_left
  intro b _
  by_cases h1 : b.id = id
  · simp only [Function.comp, if_pos h1]
    by_cases h2 : b.type = BlockType.REPEAT ∧ updates.count.isSome
    · simp only [if_pos h2]
      cases b; rfl
    · simp only [if_neg h2, spreadBlock, h, Option.getD_none]
      cases b; rfl
  · simp [Function.comp, if_neg h1]

/-- Witness for C10 (corrected): a `count` patch (no `children` field)
on the scenario-C program leaves all children lists unchanged. -/
theorem updateBlock_preserves_children_witness :
    ({ count := some 9 } : BlockUpdates).children = none ∧
    (handleUpdateBlock programC repeatFourBlockC.id
        { count := some 9 }).map Block.children =
      programC.map Block.children :=
  ⟨rfl, updateBlock_preserves_children programC repeatFourBlockC.id
    { count := some 9 } rfl⟩

/-- C6 counterexample: in the chain `W → A → B`, moving `A` one block
height below its descendant `B` is not a no-op — both `A`'s and `B`'s
connection records change. -/
theorem snapping_descendant_not_noop :
    chainA.connection.nextBlockId = some chainB.id ∧
    (applySnapping [chainEntry, chainA, chainB] chainA.id
        (some ⟨20, 140⟩)).map Block.connection ≠
      [chainEntry, chainA, chainB].map Block.connection := by
  refine ⟨rfl, fun h => ?_⟩
  have h1 : (applySnapping [chainEntry, chainA, chainB] chainA.id
      (some ⟨20, 140⟩)).map Block.connection =
      [⟨none, none⟩, ⟨none, some 2⟩, ⟨some 1, none⟩] := rfl
  rw [h1] at h
  have h2 : [chainEntry, chainA, chainB].map Block.connection =
      [⟨some 1, none⟩, ⟨some 2, some 0⟩, ⟨none, some 1⟩] := rfl
  rw [h2] at h
  simp at h

/-- C6 corrected: moving `A` below its descendant `B` first clears every
edge touching `A` (detaching it from the chain) and then performs a
genuine attachment: `A` snaps to `B`'s position plus one block height,
`A.prev` becomes `B`, `B.next` becomes `A`, and the entry marker's
`next` is cleared; no error is raised and no cycle is created. -/
theorem snapping_descendant_attaches :
    applySnapping [chainEntry, chainA, chainB] chainA.id (some ⟨20, 140⟩) =
      [⟨0, .WHEN_RUN_CLICKED, ⟨20, 20⟩, ⟨none, none⟩, none, []⟩,
       ⟨1, .MOVE_FORWARD, ⟨20, 140⟩, ⟨none, some 2⟩, none, []⟩,
       ⟨2, .MOVE_FORWARD, ⟨20, 100⟩, ⟨some 1, none⟩, none, []⟩] := rfl

/-- Helper: the chain walk of `handleRunProgram` is insensitive to any
per-block rewrite that preserves ids and connections. -/
theorem collectChain_length_map (program : List Block) (F : Block → Block)
    (hid : ∀ b, (F b).id = b.id)
    (hconn : ∀ b, (F b).connection = b.connection) :
    ∀ (fuel : Nat) (visited : List Nat) (o : Option Block),
      (collectChain (program.map F) fuel visited (o.map F)).length =
        (collectChain program fuel visited o).length := by
  intro fuel
  induction fuel with
  | zero => intro visited o; cases o <;> rfl
  | succ n ih =>
    intro visited o
    cases o with
    | none => rfl
    | some c =>
      simp only [Option.map_some', collectChain, hid c]
      by_cases hv : c.id ∈ visited
      · simp [hv]
      · simp only [if_neg hv, List.length_cons, hconn c]
        cases hnext : c.connection.nextBlockId with
        | none => simpa using ih (c.id :: visited) none
        | some nid =>
          have hp : ((fun b => decide (b.id = nid)) ∘ F) =
              (fun b : Block => decide (b.id = nid)) := by
            funext b
            simp [hid b]
          have hfind : (program.map F).find? (fun b => b.id = nid) =
              (program.find? (fun b => b.id = nid)).map F := by
            rw [List.find?_map, hp]
          dsimp only
          rw [hfind]
          exact congrArg Nat.succ
            (ih (c.id :: visited) (program.find? (fun b => b.id = nid)))

/-- Helper: `usedCount` is insensitive to any per-block rewrite that
preserves ids, types and connections. -/
theorem usedCount_map_eq (program : List Block) (F : Block → Block)
    (hid : ∀ b, (F b).id = b.id) (htype : ∀ b, (F b).type = b.type)
    (hconn : ∀ b, (F b).connection = b.connection) :
    usedCount (program.map F) = usedCount program := by
  unfold usedCount collectAttached
  have hpw : ((fun b => decide (b.type = BlockType.WHEN_RUN_CLICKED)) ∘ F) =
      (fun b : Block => decide (b.type = BlockType.WHEN_RUN_CLICKED)) := by
    funext b
    simp [htype b]
  have hfindw : (program.map F).find?
      (fun b => b.type = BlockType.WHEN_RUN_CLICKED) =
      (program.find? (fun b => b.type = BlockType.WHEN_RUN_CLICKED)).map F := by
    rw [List.find?_map, hpw]
  rw [hfindw]
  cases hw : program.find? (fun b => b.type = BlockType.WHEN_RUN_CLICKED) with
  | none => rfl
  | some w =>
    simp only [Option.map_some', hconn w]
    cases hn : w.connection.nextBlockId with
    | none => rfl
    | some fid =>
      have hp : ((fun b => decide (b.id = fid)) ∘ F) =
          (fun b : Block => decide (b.id = fid)) := by
        funext b
        simp [hid b]
      have hfind : (program.map F).find? (fun b => b.id = fid) =
          (program.find? (fun b => b.id = fid)).map F := by
        rw [List.find?_map, hp]
      dsimp only
      rw [hfind, List.length_map]
      exact collectChain_length_map program F hid hconn program.length []
        (program.find? (fun b => b.id = fid))

/-- C8: the count passed to scoring is the number of blocks on the
top-level chain attached to the entry marker: it is unchanged by any
rewrite of `count` and `children` fields (a repeat counts as one block
regardless of either), the scenario-C program counts 2 blocks, and the
stars computed on success are exactly `calculateStars` of this count and
the level's par. -/
theorem usedCount_spec :
    (∀ (program : List Block) (f : Block → Option Nat)
        (g : Block → List Block),
      usedCount (program.map (fun b =>
        Block.setCount (Block.setChildren b (g b)) (f b))) =
        usedCount program) ∧
    usedCount programC = 2 ∧
    (∀ (program : List Block) (level : LevelConfig),
      runStars program level =
        calculateStars (usedCount program) level.optimalBlockCount) := by
  refine ⟨?_, rfl, fun _ _ => rfl⟩
  intro program f g
  exact usedCount_map_eq program _
    (fun b => by cases b; rfl) (fun b => by cases b; rfl)
    (fun b => by cases b; rfl)

/-- Helper: one step of the candidate loop — the candidate is either
skipped (not eligible), becomes the new running best (strictly closer
than the running distance, or no best yet), or is eligible but not
strictly closer and the accumulators survive. -/
theorem findSnapTargetAux_cons (S : List Block) (d : Nat)
    (dp : BlockPosition) (c : Block) (rest : List Block)
    (best : Option Block) (bd : Option Int) :
    (¬ snapEligible S d dp c ∧
      findSnapTargetAux S d dp (c :: rest) best bd =
        findSnapTargetAux S d dp rest best bd) ∨
    (snapEligible S d dp c ∧
      (bd = none ∨ ∃ v, bd = some v ∧ snapDistSq dp c < v) ∧
      findSnapTargetAux S d dp (c :: rest) best bd =
        findSnapTargetAux S d dp rest (some c) (some (snapDistSq dp c))) ∨
    (snapEligible S d dp c ∧ (∃ v, bd = some v ∧ v ≤ snapDistSq dp c) ∧
      findSnapTargetAux S d dp (c :: rest) best bd =
        findSnapTargetAux S d dp rest best bd) := by
  by_cases h1 : c.id = d
  · exact Or.inl ⟨fun he => he.1 h1,
      by simp only [findSnapTargetAux, if_pos h1]⟩
  · by_cases h2 : isChildWalk S d S.length
        (S.find? (fun b => b.id = c.id)) = true
    · refine Or.inl ⟨fun he => ?_, ?_⟩
      · rw [he.2.1] at h2
        exact Bool.false_ne_true h2
      · simp only [findSnapTargetAux, if_neg h1, if_pos h2]
    · by_cases h3 : |dp.y - (c.position.y + BLOCK_HEIGHT)| ≤
          SNAP_VERTICAL_DISTANCE ∧
          |dp.x - c.position.x| ≤ SNAP_HORIZONTAL_TOLERANCE
      · have helig : snapEligible S d dp c :=
          ⟨h1, by simpa using h2, h3.1, h3.2⟩
        cases hbd : bd with
        | none =>
          refine Or.inr (Or.inl ⟨helig, Or.inl rfl, ?_⟩)
          simp only [findSnapTargetAux, if_neg h1, if_neg h2, if_pos h3,
            if_true, snapDistSq]
        | some v =>
          by_cases h4 : snapDistSq dp c < v
          · refine Or.inr (Or.inl ⟨helig, Or.inr ⟨v, rfl, h4⟩, ?_⟩)
            have h4' : decide ((dp.x - c.position.x) * (dp.x - c.position.x) +
                (dp.y - (c.position.y + BLOCK_HEIGHT)) *
                  (dp.y - (c.position.y + BLOCK_HEIGHT)) < v) = true := by
              simpa [snapDistSq] using h4
            simp only [findSnapTargetAux, if_neg h1, if_neg h2, if_pos h3,
              h4', if_pos, snapDistSq]
          · refine Or.inr (Or.inr ⟨helig, ⟨v, rfl, not_lt.mp h4⟩, ?_⟩)
            have h4' : decide ((dp.x - c.position.x) * (dp.x - c.position.x) +
                (dp.y - (c.position.y + BLOCK_HEIGHT)) *
                  (dp.y - (c.position.y + BLOCK_HEIGHT)) < v) = false := by
              simpa [snapDistSq] using h4
            simp only [findSnapTargetAux, if_neg h1, if_neg h2, if_pos h3,
              h4', if_neg, Bool.false_eq_true, not_false_eq_true]
      · refine Or.inl ⟨fun he => h3 ⟨he.2.2.1, he.2.2.2⟩, ?_⟩
        simp only [findSnapTargetAux, if_neg h1, if_neg h2, if_neg h3]

/-- Helper: with no eligible candidate left, the loop returns the
running best unchanged. -/
theorem findSnapTargetAux_of_no_eligible (S : List Block) (d : Nat)
    (dp : BlockPosition) :
    ∀ (l : List Block) (best : Option Block) (bd : Option Int),
      (∀ c ∈ l, ¬ snapEligible S d dp c) →
      findSnapTargetAux S d dp l best bd = best := by
  intro l
  induction l with
  | nil => intro best bd _; rfl
  | cons c rest ih =>
    intro best bd h
    have hrest : ∀ x ∈ rest, ¬ snapEligible S d dp x :=
      fun x hx => h x (List.mem_cons_of_mem c hx)
    rcases findSnapTargetAux_cons S d dp c rest best bd with
      ⟨_, heq⟩ | ⟨helig, _, _⟩ | ⟨helig, _, _⟩
    · rw [heq]; exact ih best bd hrest
    · exact absurd helig (h c (List.mem_cons_self c rest))
    · exact absurd helig (h c (List.mem_cons_self c rest))

/-- Helper: full characterization of the candidate loop.  Under the
accumulator invariant (`best`/`bd` are both empty, or `bd` is the squared
distance of the eligible block `best`), the result is `none` exactly when
there was no best and nothing eligible remains; and a returned block is
eligible, minimises the squared distance over the remaining eligible
candidates, and either is the surviving `best` or sits in the list with
every earlier eligible candidate strictly farther and beats the running
distance strictly. -/
theorem findSnapTargetAux_spec (S : List Block) (d : Nat)
    (dp : BlockPosition) :
    ∀ (l : List Block) (best : Option Block) (bd : Option Int),
      ((best = none ∧ bd = none) ∨
        (∃ x, best = some x ∧ bd = some (snapDistSq dp x) ∧
          snapEligible S d dp x)) →
      (findSnapTargetAux S d dp l best bd = none →
        best = none ∧ ∀ c ∈ l, ¬ snapEligible S d dp c) ∧
      (∀ t, findSnapTargetAux S d dp l best bd = some t →
        snapEligible S d dp t ∧
        (∀ c ∈ l, snapEligible S d dp c →
          snapDistSq dp t ≤ snapDistSq dp c) ∧
        ((best = some t ∧ ∀ v, bd = some v → snapDistSq dp t = v) ∨
          (∃ l₁ l₂, l = l₁ ++ t :: l₂ ∧
            (∀ c ∈ l₁, snapEligible S d dp c →
              snapDistSq dp t < snapDistSq dp c) ∧
            (∀ v, bd = some v → snapDistSq dp t < v)))) := by
  intro l
  induction l with
  | nil =>
    intro best bd hpre
    constructor
    · intro h
      exact ⟨h, fun c hc => absurd hc (List.not_mem_nil c)⟩
    · intro t ht
      rcases hpre with ⟨hb, _⟩ | ⟨x, hbx, hbd, hx⟩
      · rw [hb] at ht; exact Option.noConfusion ht
      · have hxt : x = t := by
          rw [hbx] at ht
          exact Option.some.inj ht
        subst hxt
        refine ⟨hx, fun c hc => absurd hc (List.not_mem_nil c),
          Or.inl ⟨hbx, fun v hv => ?_⟩⟩
        rw [hbd] at hv
        exact Option.some.inj hv
  | cons c rest ih =>
    intro best bd hpre
    rcases findSnapTargetAux_cons S d dp c rest best bd with
      ⟨hnc, heq⟩ | ⟨helig, hrep, heq⟩ | ⟨helig, ⟨v, hbdv, hvle⟩, heq⟩
    -- candidate skipped: not eligible
    · have IH := ih best bd hpre
      rw [heq]
      constructor
      · intro h
        obtain ⟨hb, hall⟩ := IH.1 h
        refine ⟨hb, fun x hx => ?_⟩
        rcases List.mem_cons.mp hx with rfl | hx'
        · exact hnc
        · exact hall x hx'
      · intro t ht
        obtain ⟨ht1, ht2, ht3⟩ := IH.2 t ht
        refine ⟨ht1, fun x hx hex => ?_, ?_⟩
        · rcases List.mem_cons.mp hx with rfl | hx'
          · exact absurd hex hnc
          · exact ht2 x hx' hex
        · rcases ht3 with ⟨hbt, hbdv⟩ | ⟨l₁, l₂, hsplit, hstrict, hbdv⟩
          · exact Or.inl ⟨hbt, hbdv⟩
          · refine Or.inr ⟨c :: l₁, l₂, by rw [hsplit, List.cons_append], fun x hx hex => ?_,
              hbdv⟩
            rcases List.mem_cons.mp hx with rfl | hx'
            · exact absurd hex hnc
            · exact hstrict x hx' hex
    -- candidate becomes the new running best
    · have IH := ih (some c) (some (snapDistSq dp c))
        (Or.inr ⟨c, rfl, rfl, helig⟩)
      rw [heq]
      constructor
      · intro h
        obtain ⟨hb, _⟩ := IH.1 h
        exact Option.noConfusion hb
      · intro t ht
        obtain ⟨ht1, ht2, ht3⟩ := IH.2 t ht
        have htc : snapDistSq dp t ≤ snapDistSq dp c := by
          rcases ht3 with ⟨hbt, hbdv⟩ | ⟨_, _, _, _, hbdv⟩
          · exact le_of_eq (hbdv (snapDistSq dp c) rfl)
          · exact le_of_lt (hbdv (snapDistSq dp c) rfl)
        refine ⟨ht1, fun x hx hex => ?_, ?_⟩
        · rcases List.mem_cons.mp hx with rfl | hx'
          · exact htc
          · exact ht2 x hx' hex
        · rcases ht3 with ⟨hbt, hbdv⟩ | ⟨l₁, l₂, hsplit, hstrict, hbdv⟩
          · -- the candidate itself survived to the end
            have hct : c = t := Option.some.inj hbt
            subst hct
            refine Or.inr ⟨[], rest, rfl, fun x hx => absurd hx
              (List.not_mem_nil x), fun w hw => ?_⟩
            rcases hrep with hnone | ⟨v, hbdv', hlt⟩
            · rw [hnone] at hw; exact absurd hw (by simp)
            · rw [hbdv'] at hw
              rw [← Option.some.inj hw]
              exact hlt
          · -- found strictly later in the list
            have hstrictc : snapDistSq dp t < snapDistSq dp c :=
              hbdv (snapDistSq dp c) rfl
            refine Or.inr ⟨c :: l₁, l₂, by rw [hsplit, List.cons_append], fun x hx hex => ?_,
              fun w hw => ?_⟩
            · rcases List.mem_cons.mp hx with rfl | hx'
              · exact hstrictc
              · exact hstrict x hx' hex
            · rcases hrep with hnone | ⟨v, hbdv', hlt⟩
              · rw [hnone] at hw; exact absurd hw (by simp)
              · rw [hbdv'] at hw
                rw [← Option.some.inj hw]
                exact lt_trans hstrictc hlt
    -- candidate eligible but not strictly closer: accumulators survive
    · have IH := ih best bd hpre
      rw [heq]
      have hbest : ∃ x, best = some x ∧ bd = some (snapDistSq dp x) ∧
          snapEligible S d dp x := by
        rcases hpre with ⟨_, hbd⟩ | hx
        · rw [hbd] at hbdv; exact absurd hbdv (by simp)
        · exact hx
      constructor
      · intro h
        obtain ⟨hb, _⟩ := IH.1 h
        obtain ⟨x, hbx, _, _⟩ := hbest
        rw [hbx] at hb
        exact absurd hb (by simp)
      · intro t ht
        obtain ⟨ht1, ht2, ht3⟩ := IH.2 t ht
        have htv : snapDistSq dp t ≤ v := by
          rcases ht3 with ⟨_, hbdv'⟩ | ⟨_, _, _, _, hbdv'⟩
          · exact le_of_eq (hbdv' v hbdv)
          · exact le_of_lt (hbdv' v hbdv)
        refine ⟨ht1, fun x hx hex => ?_, ?_⟩
        · rcases List.mem_cons.mp hx with rfl | hx'
          · exact le_trans htv hvle
          · exact ht2 x hx' hex
        · rcases ht3 with ⟨hbt, hbdv'⟩ | ⟨l₁, l₂, hsplit, hstrict, hbdv'⟩
          · exact Or.inl ⟨hbt, hbdv'⟩
          · refine Or.inr ⟨c :: l₁, l₂, by rw [hsplit, List.cons_append], fun x hx hex => ?_,
              hbdv'⟩
            rcases List.mem_cons.mp hx with rfl | hx'
            · exact lt_of_lt_of_le (hbdv' v hbdv) hvle
            · exact hstrict x hx' hex

/-- C5 counterexample: in `[ancestorBlock, otherBlock, draggedBlock]`
with the dragged block's id, `ancestorBlock` is first in iteration
order, satisfies both distance tolerances and ties `otherBlock` for the
minimal distance, so by the claim the search must return it; the source
instead skips it (its `next` chain reaches the dragged id) and returns
`otherBlock`. -/
theorem findSnapTarget_skips_ancestor :
    |(40 : Int) - (ancestorBlock.position.y + BLOCK_HEIGHT)| ≤
      SNAP_VERTICAL_DISTANCE ∧
    |(0 : Int) - ancestorBlock.position.x| ≤ SNAP_HORIZONTAL_TOLERANCE ∧
    snapDistSq ⟨0, 40⟩ ancestorBlock ≤ snapDistSq ⟨0, 40⟩ otherBlock ∧
    ancestorBlock.id ≠ draggedBlock.id ∧
    (findSnapTarget [ancestorBlock, otherBlock, draggedBlock]
        draggedBlock.id ⟨0, 40⟩).map Block.id = some otherBlock.id ∧
    otherBlock.id ≠ ancestorBlock.id := by
  decide

/-- C5 corrected: the snap-target search returns, among candidates that
are not the dragged block, from whose `next` chain the dragged id is not
reachable, and that satisfy `|dy| ≤ SNAP_VERTICAL_DISTANCE` and
`|dx| ≤ SNAP_HORIZONTAL_TOLERANCE`, the candidate minimising the
distance (equivalently its square), with ties broken in favour of the
first candidate in iteration order; it returns no target exactly when no
candidate is eligible. -/
theorem findSnapTarget_spec (blocks : List Block) (draggedId : Nat)
    (dp : BlockPosition) :
    (findSnapTarget blocks draggedId dp = none ↔
      ∀ c ∈ blocks, ¬ snapEligible blocks draggedId dp c) ∧
    (∀ t, findSnapTarget blocks draggedId dp = some t →
      snapEligible blocks draggedId dp t ∧
      (∀ c ∈ blocks, snapEligible blocks draggedId dp c →
        snapDistSq dp t ≤ snapDistSq dp c) ∧
      ∃ l₁ l₂, blocks = l₁ ++ t :: l₂ ∧
        ∀ c ∈ l₁, snapEligible blocks draggedId dp c →
          snapDistSq dp t < snapDistSq dp c) := by
  have hmain := findSnapTargetAux_spec blocks draggedId dp blocks none none
    (Or.inl ⟨rfl, rfl⟩)
  constructor
  · constructor
    · intro h
      exact (hmain.1 h).2
    · intro h
      exact findSnapTargetAux_of_no_eligible blocks draggedId dp blocks
        none none h
  · intro t ht
    obtain ⟨ht1, ht2, ht3⟩ := hmain.2 t ht
    refine ⟨ht1, ht2, ?_⟩
    rcases ht3 with ⟨hbt, _⟩ | ⟨l₁, l₂, hsplit, hstrict, _⟩
    · exact absurd hbt (by simp)
    · exact ⟨l₁, l₂, hsplit, hstrict⟩

/-- Witness for C5 (corrected): at the counterexample scene the theorem
applies to the returned block, which is eligible. -/
theorem findSnapTarget_spec_witness :
    snapEligible [ancestorBlock, otherBlock, draggedBlock] draggedBlock.id
      ⟨0, 40⟩ otherBlock :=
  ((findSnapTarget_spec [ancestorBlock, otherBlock, draggedBlock]
    draggedBlock.id ⟨0, 40⟩).2 otherBlock rfl).1

/-! ### Acyclicity of the `next` graph under workspace operations (C4) -/

theorem Block.id_mk (i : Nat) (ty : BlockType) (p : BlockPosition)
    (c : BlockConnection) (n : Option Nat) (ch : List Block) :
    (Block.mk i ty p c n ch).id = i := rfl

theorem Block.connection_mk (i : Nat) (ty : BlockType) (p : BlockPosition)
    (c : BlockConnection) (n : Option Nat) (ch : List Block) :
    (Block.mk i ty p c n ch).connection = c := rfl

theorem Block.id_setConnection (b : Block) (c : BlockConnection) :
    (b.setConnection c).id = b.id := by cases b; rfl

theorem Block.connection_setConnection (b : Block) (c : BlockConnection) :
    (b.setConnection c).connection = c := by cases b; rfl

theorem Block.id_setChildren (b : Block) (ch : List Block) :
    (b.setChildren ch).id = b.id := by cases b; rfl

theorem Block.connection_setChildren (b : Block) (ch : List Block) :
    (b.setChildren ch).connection = b.connection := by cases b; rfl

theorem Block.id_setPosition (b : Block) (p : BlockPosition) :
    (b.setPosition p).id = b.id := by cases b; rfl

theorem Block.connection_setPosition (b : Block) (p : BlockPosition) :
    (b.setPosition p).connection = b.connection := by cases b; rfl

/-- Helper: a subgraph of an acyclic `next` graph is acyclic. -/
theorem acyclic_of_subrel {s s' : List Block}
    (h : ∀ a b, NextEdge s' a b → NextEdge s a b) (hs : AcyclicNext s) :
    AcyclicNext s' :=
  fun a hc => hs a (Relation.TransGen.mono h hc)

/-- Helper: a graph with no `next` edges is acyclic. -/
theorem acyclic_of_no_edges {s : List Block}
    (h : ∀ a b, ¬ NextEdge s a b) : AcyclicNext s := by
  intro a hc
  cases hc with
  | single e => exact h _ _ e
  | tail _ e => exact h _ _ e

/-- Helper: mapping a per-block rewrite that keeps each id and either
keeps or clears each `next` pointer only removes `next` edges. -/
theorem edge_sub_of_map (s : List Block) (f : Block → Block)
    (hid : ∀ b ∈ s, (f b).id = b.id)
    (hnext : ∀ b ∈ s, (f b).connection.nextBlockId =
      b.connection.nextBlockId ∨ (f b).connection.nextBlockId = none) :
    ∀ a b, NextEdge (s.map f) a b → NextEdge s a b := by
  rintro a b ⟨blk, hmem, hida, hnexta⟩
  obtain ⟨orig, horig, rfl⟩ := List.mem_map.mp hmem
  rcases hnext orig horig with h | h
  · exact ⟨orig, horig, by rw [← hid orig horig, hida], by rw [← h, hnexta]⟩
  · rw [h] at hnexta
    exact Option.noConfusion hnexta

/-- Helper: cleaning only removes `next` edges. -/
theorem cleanConnections_edge_sub (s : List Block) (m : Nat) :
    ∀ a b, NextEdge (cleanConnections s m) a b → NextEdge s a b := by
  apply edge_sub_of_map
  · intro b _
    by_cases h1 : b.connection.nextBlockId = some m
    · simp only [if_pos h1, Block.id_setConnection]
    · by_cases h2 : b.connection.prevBlockId = some m
      · simp only [if_neg h1, if_pos h2, Block.id_setConnection]
      · by_cases h3 : b.type = BlockType.REPEAT ∧
            (b.children.filter (fun child => child.id ≠ m)).length ≠
              b.children.length
        · simp only [if_neg h1, if_neg h2, if_pos h3, Block.id_setChildren]
        · by_cases h4 : b.id = m
          · simp only [if_neg h1, if_neg h2, if_neg h3, if_pos h4,
              Block.id_setConnection]
          · simp only [if_neg h1, if_neg h2, if_neg h3, if_neg h4]
  · intro b _
    by_cases h1 : b.connection.nextBlockId = some m
    · right
      simp only [if_pos h1, Block.connection_setConnection]
    · by_cases h2 : b.connection.prevBlockId = some m
      · left
        simp only [if_neg h1, if_pos h2, Block.connection_setConnection]
      · by_cases h3 : b.type = BlockType.REPEAT ∧
            (b.children.filter (fun child => child.id ≠ m)).length ≠
              b.children.length
        · left
          simp only [if_neg h1, if_neg h2, if_pos h3,
            Block.connection_setChildren]
        · by_cases h4 : b.id = m
          · right
            simp only [if_neg h1, if_neg h2, if_neg h3, if_pos h4,
              Block.connection_setConnection]
          · left
            simp only [if_neg h1, if_neg h2, if_neg h3, if_neg h4]

/-- Helper: after cleaning, no block's `next` points at the moved id. -/
theorem cleanConnections_no_next_moved (s : List Block) (m : Nat) :
    ∀ b' ∈ cleanConnections s m, b'.connection.nextBlockId ≠ some m := by
  intro b' hmem
  obtain ⟨b, hb, rfl⟩ := List.mem_map.mp hmem
  by_cases h1 : b.connection.nextBlockId = some m
  · simp only [if_pos h1, Block.connection_setConnection]
    exact fun h => Option.noConfusion h
  · by_cases h2 : b.connection.prevBlockId = some m
    · simp only [if_neg h1, if_pos h2, Block.connection_setConnection]
      exact h1
    · by_cases h3 : b.type = BlockType.REPEAT ∧
          (b.children.filter (fun child => child.id ≠ m)).length ≠
            b.children.length
      · simp only [if_neg h1, if_neg h2, if_pos h3,
          Block.connection_setChildren]
        exact h1
      · by_cases h4 : b.id = m
        · simp only [if_neg h1, if_neg h2, if_neg h3, if_pos h4,
            Block.connection_setConnection]
          exact fun h => Option.noConfusion h
        · simp only [if_neg h1, if_neg h2, if_neg h3, if_neg h4]
          exact h1

/-- Helper: a returned snap target is one of the candidates and is not
the dragged block. -/
theorem findSnapTarget_mem (blocks : List Block) (d : Nat)
    (dp : BlockPosition) (t : Block)
    (h : findSnapTarget blocks d dp = some t) : t ∈ blocks ∧ t.id ≠ d := by
  have hmain := findSnapTargetAux_spec blocks d dp blocks none none
    (Or.inl ⟨rfl, rfl⟩)
  obtain ⟨ht1, _, ht3⟩ := hmain.2 t h
  rcases ht3 with ⟨hbt, _⟩ | ⟨l₁, l₂, hsplit, _, _⟩
  · exact absurd hbt (by simp)
  · refine ⟨?_, ht1.1⟩
    rw [hsplit]
    exact List.mem_append_right l₁ (List.mem_cons_self t l₂)

/-- Helper: appending a freshly created block (no connections) adds no
`next` edges. -/
theorem create_edge_sub (s : List Block) (id' : Nat) (ty : BlockType)
    (pos : BlockPosition) :
    ∀ a b, NextEdge (s ++ [createBlockInstance id' ty pos]) a b →
      NextEdge s a b := by
  rintro a b ⟨blk, hmem, hida, hnexta⟩
  rcases List.mem_append.mp hmem with h | h
  · exact ⟨blk, h, hida, hnexta⟩
  · have hblk : blk = createBlockInstance id' ty pos := List.mem_singleton.mp h
    subst hblk
    unfold createBlockInstance at hnexta
    by_cases hty : ty = BlockType.REPEAT
    · rw [if_pos hty] at hnexta
      exact Option.noConfusion hnexta
    · rw [if_neg hty] at hnexta
      exact Option.noConfusion hnexta

/-- Helper: the initial workspace (only the entry marker) has no `next`
edges. -/
theorem initializeWorkspace_acyclic : AcyclicNext initializeWorkspace := by
  apply acyclic_of_no_edges
  rintro a b ⟨blk, hmem, _, hnexta⟩
  have hblk : blk = createBlockInstance 0 BlockType.WHEN_RUN_CLICKED ⟨20, 20⟩ :=
    List.mem_singleton.mp hmem
  subst hblk
  exact Option.noConfusion hnexta

/-- Helper (abstract form): if every edge of a graph `s'` is the new
`target → moved` edge, the new `moved → X` edge (where `X` is the
target's old `next`), or an old edge of the cleaned graph that neither
starts nor ends at the moved id, then `s'` is acyclic whenever the
cleaned graph is. -/
theorem splice_acyclic_of_inv (clean s' : List Block) (m : Nat) (t : Block)
    (hacy : AcyclicNext clean)
    (hnm : ∀ b ∈ clean, b.connection.nextBlockId ≠ some m)
    (htmem : t ∈ clean) (htid : t.id ≠ m)
    (hinv : ∀ a b, NextEdge s' a b →
      (a = m ∧ t.connection.nextBlockId = some b) ∨
      (a = t.id ∧ b = m) ∨
      (a ≠ m ∧ NextEdge clean a b ∧ b ≠ m)) :
    AcyclicNext s' := by
  cases hXeq : t.connection.nextBlockId with
  | none =>
    -- the moved block has no outgoing edge: once a path reaches `m` it
    -- stops, so every cycle would already be a cycle of the clean graph
    have hnoexit : ∀ b, ¬ NextEdge s' m b := by
      intro b hb
      rcases hinv m b hb with ⟨_, hc⟩ | ⟨hmt, _⟩ | ⟨hmm, _, _⟩
      · rw [hXeq] at hc
        exact Option.noConfusion hc
      · exact htid hmt.symm
      · exact hmm rfl
    have hwalk : ∀ u v, Relation.ReflTransGen (NextEdge s') u v →
        u ≠ m → v = m ∨ Relation.ReflTransGen (NextEdge clean) u v := by
      intro u v h
      induction h using Relation.ReflTransGen.head_induction_on with
      | refl => exact fun _ => Or.inr Relation.ReflTransGen.refl
      | head hstep hrest ih =>
        intro hu
        rcases hinv _ _ hstep with ⟨hum, _⟩ | ⟨_, hbm⟩ | ⟨_, hedge, hbm⟩
        · exact absurd hum hu
        · rw [hbm] at hrest
          rcases Relation.ReflTransGen.cases_head hrest with heq | ⟨c, hc, _⟩
          · exact Or.inl heq.symm
          · exact absurd hc (hnoexit c)
        · rcases ih hbm with hv | hreach
          · exact Or.inl hv
          · exact Or.inr (Relation.ReflTransGen.head hedge hreach)
    intro a hcy
    obtain ⟨b, hab, hba⟩ := Relation.TransGen.head'_iff.mp hcy
    rcases hinv a b hab with ⟨_, hc⟩ | ⟨hat, hbm⟩ | ⟨ham, hedge, hbm⟩
    · rw [hXeq] at hc
      exact Option.noConfusion hc
    · rw [hbm, hat] at hba
      rcases Relation.ReflTransGen.cases_head hba with heq | ⟨c, hc, _⟩
      · exact htid heq.symm
      · exact hnoexit c hc
    · rcases hwalk b a hba hbm with ham' | hreach
      · exact ham ham'
      · exact hacy a (Relation.TransGen.head' hedge hreach)
  | some X =>
    -- contract the moved block: replace it by `X` (the target's old
    -- `next`) and every new-graph path maps to a clean-graph path
    have hXm : X ≠ m := by
      intro h
      rw [h] at hXeq
      exact hnm t htmem hXeq
    have hedgetX : NextEdge clean t.id X := ⟨t, htmem, rfl, hXeq⟩
    have hifm : (if m = m then X else m) = X := if_pos rfl
    have hifX : (if X = m then X else X) = X := if_neg hXm
    have hift : (if t.id = m then X else t.id) = t.id := if_neg htid
    have hlift : ∀ u v, Relation.ReflTransGen (NextEdge s') u v →
        Relation.ReflTransGen (NextEdge clean) (if u = m then X else u)
          (if v = m then X else v) := by
      intro u v h
      induction h using Relation.ReflTransGen.head_induction_on with
      | refl => exact Relation.ReflTransGen.refl
      | head hstep hrest ih =>
        rcases hinv _ _ hstep with ⟨ham, hc⟩ | ⟨hat, hbm⟩ | ⟨ham, hedge, hbm⟩
        · rw [hXeq] at hc
          have hbX : _ = X := (Option.some.inj hc).symm
          rw [ham, hifm]
          rw [hbX, hifX] at ih
          exact ih
        · rw [hat, hift]
          rw [hbm, hifm] at ih
          exact Relation.ReflTransGen.head hedgetX ih
        · rw [if_neg ham]
          rw [if_neg hbm] at ih
          exact Relation.ReflTransGen.head hedge ih
    intro a hcy
    obtain ⟨b, hab, hba⟩ := Relation.TransGen.head'_iff.mp hcy
    rcases hinv a b hab with ⟨ham, hc⟩ | ⟨hat, hbm⟩ | ⟨ham, hedge, hbm⟩
    · rw [hXeq] at hc
      have hbX : b = X := (Option.some.inj hc).symm
      rw [hbX, ham] at hba
      rcases Relation.ReflTransGen.cases_tail hba with heq | ⟨c, hXc, hcm⟩
      · exact hXm heq.symm
      · rcases hinv c _ hcm with ⟨_, hc2⟩ | ⟨hct, _⟩ | ⟨_, _, hmm⟩
        · rw [hXeq] at hc2
          exact hXm (Option.some.inj hc2)
        · rw [hct] at hXc
          have hl := hlift X t.id hXc
          rw [hifX, hift] at hl
          exact hacy t.id (Relation.TransGen.head' hedgetX hl)
        · exact hmm rfl
    · rw [hbm, hat] at hba
      have hl := hlift m t.id hba
      rw [hifm, hift] at hl
      exact hacy t.id (Relation.TransGen.head' hedgetX hl)
    · have hl := hlift b a hba
      rw [if_neg hbm, if_neg ham] at hl
      exact hacy a (Relation.TransGen.head' hedge hl)

/-- Helper: the top-level splice of `applySnapping` (insert the moved
block directly below the target) preserves acyclicity of the `next`
graph.  `clean` is the cleaned workspace, `m` the moved id, `t` the snap
target, `px`/`py` the snapped position. -/
theorem splice_preserves_acyclic (clean : List Block) (m : Nat) (t : Block)
    (px py : Int) (hacy : AcyclicNext clean)
    (hnm : ∀ b ∈ clean, b.connection.nextBlockId ≠ some m)
    (htmem : t ∈ clean) (htid : t.id ≠ m) :
    AcyclicNext (clean.map (fun b =>
      if b.id = m then
        ⟨b.id, b.type, ⟨px, py⟩, ⟨t.connection.nextBlockId, some t.id⟩,
          b.count, b.children⟩
      else if b.id = t.id then
        b.setConnection ⟨some m, b.connection.prevBlockId⟩
      else if (match t.connection.nextBlockId with
          | some nid => decide (b.id = nid)
          | none => false) then
        b.setConnection ⟨b.connection.nextBlockId, some m⟩
      else b)) := by
  apply splice_acyclic_of_inv clean _ m t hacy hnm htmem htid
  rintro a b ⟨blk, hmem, hida, hnexta⟩
  obtain ⟨orig, horig, rfl⟩ := List.mem_map.mp hmem
  by_cases h1 : orig.id = m
  · left
    simp only [if_pos h1, Block.id_mk, Block.connection_mk] at hida hnexta
    exact ⟨by rw [← hida, h1], hnexta⟩
  · by_cases h2 : orig.id = t.id
    · right; left
      simp only [if_neg h1, if_pos h2, Block.id_setConnection,
        Block.connection_setConnection] at hida hnexta
      exact ⟨by rw [← hida, h2], (Option.some.inj hnexta).symm⟩
    · right; right
      by_cases h3 : (match t.connection.nextBlockId with
          | some nid => decide (orig.id = nid)
          | none => false) = true
      · simp only [if_neg h1, if_neg h2, if_pos h3, Block.id_setConnection,
          Block.connection_setConnection] at hida hnexta
        refine ⟨by rw [← hida]; exact h1, ⟨orig, horig, hida, hnexta⟩, ?_⟩
        intro hbm
        subst hbm
        exact hnm orig horig hnexta
      · simp only [if_neg h1, if_neg h2, if_neg h3] at hida hnexta
        refine ⟨by rw [← hida]; exact h1, ⟨orig, horig, hida, hnexta⟩, ?_⟩
        intro hbm
        subst hbm
        exact hnm orig horig hnexta

/-- Helper: every branch of `applySnapping` preserves acyclicity of the
`next` graph. -/
theorem applySnapping_preserves_acyclic (s : List Block) (m : Nat)
    (dp : Option BlockPosition) (hs : AcyclicNext s) :
    AcyclicNext (applySnapping s m dp) := by
  have hclean : AcyclicNext (cleanConnections s m) :=
    acyclic_of_subrel (cleanConnections_edge_sub s m) hs
  have hnm := cleanConnections_no_next_moved s m
  cases hfind : s.find? (fun b => b.id = m) with
  | none =>
    simp only [applySnapping, hfind]
    exact hs
  | some moved =>
    simp only [applySnapping, hfind]
    by_cases hwrc : moved.type = BlockType.WHEN_RUN_CLICKED
    · rw [if_pos hwrc]
      refine acyclic_of_subrel (edge_sub_of_map s _ ?_ ?_) hs
      · intro b _
        by_cases hb : b.id = m
        · cases dp with
          | some p => simp only [if_pos hb, Block.id_setPosition]
          | none => simp only [if_pos hb]
        · simp only [if_neg hb]
      · intro b _
        left
        by_cases hb : b.id = m
        · cases dp with
          | some p => simp only [if_pos hb, Block.connection_setPosition]
          | none => simp only [if_pos hb]
        · simp only [if_neg hb]
    · rw [if_neg hwrc]
      cases htarget : findSnapTarget (cleanConnections s m) m
          ((dp).getD moved.position) with
      | none =>
        simp only [htarget]
        refine acyclic_of_subrel (edge_sub_of_map _ _ ?_ ?_) hclean
        · intro b _
          by_cases hb : b.id = m
          · cases dp with
            | some p => simp only [if_pos hb, Block.id_setPosition]
            | none => simp only [if_pos hb]
          · simp only [if_neg hb]
        · intro b _
          left
          by_cases hb : b.id = m
          · cases dp with
            | some p => simp only [if_pos hb, Block.connection_setPosition]
            | none => simp only [if_pos hb]
          · simp only [if_neg hb]
      | some t =>
        simp only [htarget]
        obtain ⟨htmem, htid⟩ := findSnapTarget_mem _ _ _ _ htarget
        by_cases hrep : t.type = BlockType.REPEAT
        · rw [if_pos hrep]
          refine acyclic_of_subrel (edge_sub_of_map _ _ ?_ ?_) hclean
          · intro b _
            by_cases hb : b.id = m
            · simp only [if_pos hb, Block.id_mk]
            · by_cases hbt : b.id = t.id
              · simp only [if_neg hb, if_pos hbt]
                by_cases hch : ((if b.type = BlockType.REPEAT then b.children
                    else []).any (fun child => child.id = m)) = true
                · simp only [if_pos hch]
                · simp only [if_neg hch, Block.id_setChildren]
              · simp only [if_neg hb, if_neg hbt]
          · intro b _
            by_cases hb : b.id = m
            · right
              simp only [if_pos hb, Block.connection_mk]
            · left
              by_cases hbt : b.id = t.id
              · simp only [if_neg hb, if_pos hbt]
                by_cases hch : ((if b.type = BlockType.REPEAT then b.children
                    else []).any (fun child => child.id = m)) = true
                · simp only [if_pos hch]
                · simp only [if_neg hch, Block.connection_setChildren]
              · simp only [if_neg hb, if_neg hbt]
        · rw [if_neg hrep]
          cases hpar : findParentRepeatBlock (cleanConnections s m)
              (cleanConnections s m).length t with
          | some pr =>
            simp only [hpar]
            refine acyclic_of_subrel (edge_sub_of_map _ _ ?_ ?_) hclean
            · intro b _
              by_cases hb : b.id = m
              · simp only [if_pos hb, Block.id_mk]
              · by_cases hbt : b.id = pr.id
                · simp only [if_neg hb, if_pos hbt]
                  by_cases hch : ((if b.type = BlockType.REPEAT then b.children
                      else []).any (fun child => child.id = m)) = true
                  · simp only [if_pos hch]
                  · simp only [if_neg hch, Block.id_setChildren]
                · simp only [if_neg hb, if_neg hbt]
            · intro b _
              by_cases hb : b.id = m
              · right
                simp only [if_pos hb, Block.connection_mk]
              · left
                by_cases hbt : b.id = pr.id
                · simp only [if_neg hb, if_pos hbt]
                  by_cases hch : ((if b.type = BlockType.REPEAT then b.children
                      else []).any (fun child => child.id = m)) = true
                  · simp only [if_pos hch]
                  · simp only [if_neg hch, Block.connection_setChildren]
                · simp only [if_neg hb, if_neg hbt]
          | none =>
            simp only [hpar]
            exact splice_preserves_acyclic (cleanConnections s m) m t
              t.position.x (t.position.y + BLOCK_HEIGHT + BLOCK_SPACING)
              hclean hnm htmem htid

/-- Helper: every workspace operation preserves acyclicity. -/
theorem applyOp_preserves_acyclic (s : List Block) (op : WorkspaceOp)
    (hs : AcyclicNext s) : AcyclicNext (applyOp s op) := by
  cases op with
  | create ty pos =>
    exact acyclic_of_subrel (create_edge_sub s (freshId s) ty pos) hs
  | snap movedId dp => exact applySnapping_preserves_acyclic s movedId dp hs

/-- Helper: any workspace built from the entry marker by creations and
snaps has an acyclic `next` graph. -/
theorem runOps_acyclic (ops : List WorkspaceOp) :
    AcyclicNext (runOps ops) := by
  suffices h : ∀ (ops : List WorkspaceOp) (s : List Block), AcyclicNext s →
      AcyclicNext (ops.foldl applyOp s) from
    h ops initializeWorkspace initializeWorkspace_acyclic
  intro ops
  induction ops with
  | nil => exact fun s hs => hs
  | cons op rest ih =>
    intro s hs
    exact ih (applyOp s op) (applyOp_preserves_acyclic s op hs)

/-- Helper: every id the bounded traversal emits is `next`-reachable
from the start id. -/
theorem chainIds_reaches (s : List Block) :
    ∀ (fuel : Nat) (i j : Nat), j ∈ chainIds s fuel (some i) →
      Relation.ReflTransGen (NextEdge s) i j := by
  intro fuel
  induction fuel with
  | zero => intro i j hj; exact absurd hj (List.not_mem_nil j)
  | succ n ih =>
    intro i j hj
    simp only [chainIds] at hj
    cases hfind : s.find? (fun b => b.id = i) with
    | none =>
      rw [hfind] at hj
      exact absurd hj (List.not_mem_nil j)
    | some b =>
      rw [hfind] at hj
      rcases List.mem_cons.mp hj with rfl | hj'
      · exact Relation.ReflTransGen.refl
      · have hbmem : b ∈ s := List.mem_of_find?_eq_some hfind
        have hbid : b.id = i := by
          have h2 := List.find?_some hfind
          simpa using h2
        cases hnext : b.connection.nextBlockId with
        | none =>
          rw [hnext] at hj'
          simp [chainIds] at hj'
        | some nid =>
          rw [hnext] at hj'
          exact Relation.ReflTransGen.head ⟨b, hbmem, hbid, hnext⟩
            (ih nid j hj')

/-- Helper: on an acyclic graph the bounded traversal never emits an id
twice. -/
theorem chainIds_nodup (s : List Block) (hs : AcyclicNext s) :
    ∀ (fuel : Nat) (o : Option Nat), (chainIds s fuel o).Nodup := by
  intro fuel
  induction fuel with
  | zero => intro o; cases o <;> exact List.nodup_nil
  | succ n ih =>
    intro o
    cases o with
    | none => exact List.nodup_nil
    | some i =>
      simp only [chainIds]
      cases hfind : s.find? (fun b => b.id = i) with
      | none => exact List.nodup_nil
      | some b =>
        refine List.nodup_cons.mpr ⟨?_, ih b.connection.nextBlockId⟩
        intro hmem
        have hbmem : b ∈ s := List.mem_of_find?_eq_some hfind
        have hbid : b.id = i := by
          have h2 := List.find?_some hfind
          simpa using h2
        cases hnext : b.connection.nextBlockId with
        | none =>
          rw [hnext] at hmem
          simp [chainIds] at hmem
        | some nid =>
          rw [hnext] at hmem
          exact hs i (Relation.TransGen.head' ⟨b, hbmem, hbid, hnext⟩
            (chainIds_reaches s n nid i hmem))

/-- Helper: every id the traversal emits is the id of some block. -/
theorem chainIds_subset_ids (s : List Block) :
    ∀ (fuel : Nat) (o : Option Nat) (j : Nat), j ∈ chainIds s fuel o →
      j ∈ s.map Block.id := by
  intro fuel
  induction fuel with
  | zero => intro o j hj; cases o <;> exact absurd hj (List.not_mem_nil j)
  | succ n ih =>
    intro o j hj
    cases o with
    | none => exact absurd hj (List.not_mem_nil j)
    | some i =>
      simp only [chainIds] at hj
      cases hfind : s.find? (fun b => b.id = i) with
      | none =>
        rw [hfind] at hj
        exact absurd hj (List.not_mem_nil j)
      | some b =>
        rw [hfind] at hj
        rcases List.mem_cons.mp hj with rfl | hj'
        · have hbmem : b ∈ s := List.mem_of_find?_eq_some hfind
          have hbid : b.id = j := by
            have h2 := List.find?_some hfind
            simpa using h2
          exact hbid ▸ List.mem_map_of_mem Block.id hbmem
        · exact ih b.connection.nextBlockId j hj'

/-- Helper: a duplicate-free list included in another list is no longer
than it. -/
theorem nodup_length_le {α : Type} [DecidableEq α] :
    ∀ (l l' : List α), l.Nodup → (∀ x ∈ l, x ∈ l') →
      l.length ≤ l'.length := by
  intro l
  induction l with
  | nil => intro l' _ _; exact Nat.zero_le _
  | cons a l ih =>
    intro l' hnd hsub
    have ha : a ∈ l' := hsub a (List.mem_cons_self a l)
    have hnd' := List.nodup_cons.mp hnd
    have hsub' : ∀ x ∈ l, x ∈ l'.erase a := by
      intro x hx
      refine (List.mem_erase_of_ne ?_).mpr (hsub x (List.mem_cons_of_mem a hx))
      intro hxa
      rw [hxa] at hx
      exact hnd'.1 hx
    have hlen := ih (l'.erase a) hnd'.2 hsub'
    have herase : (l'.erase a).length = l'.length - 1 :=
      List.length_erase_of_mem ha
    have hpos : 0 < l'.length := List.length_pos_of_mem ha
    simp only [List.length_cons]
    omega

/-- Helper: on an acyclic graph the traversal emits at most one id per
block. -/
theorem chainIds_length_le (s : List Block) (hs : AcyclicNext s)
    (fuel : Nat) (o : Option Nat) : (chainIds s fuel o).length ≤ s.length := by
  have h := nodup_length_le (chainIds s fuel o) (s.map Block.id)
    (chainIds_nodup s hs fuel o) (chainIds_subset_ids s fuel o)
  rwa [List.length_map] at h

/-- Helper: the traversal output grows monotonically with fuel. -/
theorem chainIds_length_mono (s : List Block) :
    ∀ (fuel : Nat) (o : Option Nat),
      (chainIds s fuel o).length ≤ (chainIds s (fuel + 1) o).length := by
  intro fuel
  induction fuel with
  | zero => intro o; cases o <;> simp [chainIds]
  | succ n ih =>
    intro o
    cases o with
    | none => exact le_refl _
    | some i =>
      simp only [chainIds]
      cases hfind : s.find? (fun b => b.id = i) with
      | none => exact le_refl _
      | some b =>
        simp only [List.length_cons]
        exact Nat.succ_le_succ (ih b.connection.nextBlockId)

/-- Helper: once the traversal stops before exhausting its fuel, more
fuel changes nothing. -/
theorem chainIds_stable_of_lt (s : List Block) :
    ∀ (fuel : Nat) (o : Option Nat), (chainIds s fuel o).length < fuel →
      chainIds s (fuel + 1) o = chainIds s fuel o := by
  intro fuel
  induction fuel with
  | zero => intro o h; exact absurd h (Nat.not_lt_zero _)
  | succ n ih =>
    intro o h
    cases o with
    | none => rfl
    | some i =>
      simp only [chainIds] at h ⊢
      cases hfind : s.find? (fun b => b.id = i) with
      | none => rfl
      | some b =>
        simp only [hfind, List.length_cons] at h ⊢
        rw [ih b.connection.nextBlockId (Nat.lt_of_succ_lt_succ h)]

/-- Helper: two traversals with fuel differing by one and equal output
lengths produce the same output. -/
theorem chainIds_eq_of_length_eq (s : List Block) :
    ∀ (fuel : Nat) (o : Option Nat),
      (chainIds s fuel o).length = (chainIds s (fuel + 1) o).length →
      chainIds s (fuel + 1) o = chainIds s fuel o := by
  intro fuel
  induction fuel with
  | zero =>
    intro o h
    cases o with
    | none => rfl
    | some i =>
      simp only [chainIds] at h ⊢
      cases hfind : s.find? (fun b => b.id = i) with
      | none => rfl
      | some b =>
        simp [hfind, chainIds] at h
  | succ n ih =>
    intro o h
    cases o with
    | none => rfl
    | some i =>
      simp only [chainIds] at h ⊢
      cases hfind : s.find? (fun b => b.id = i) with
      | none => rfl
      | some b =>
        simp only [hfind, List.length_cons] at h ⊢
        rw [ih b.connection.nextBlockId (Nat.succ_injective h)]

/-- Helper: `blockCount` fuel suffices on an acyclic graph — extra fuel
never changes the traversal. -/
theorem chainIds_stable (s : List Block) (hs : AcyclicNext s)
    (o : Option Nat) :
    ∀ k, chainIds s (s.length + k) o = chainIds s s.length o := by
  have hone : ∀ fuel, s.length ≤ fuel →
      chainIds s (fuel + 1) o = chainIds s fuel o := by
    intro fuel hfuel
    by_cases hlt : (chainIds s fuel o).length < fuel
    · exact chainIds_stable_of_lt s fuel o hlt
    · have h1 : (chainIds s fuel o).length ≤ s.length :=
        chainIds_length_le s hs fuel o
      have h2 : (chainIds s (fuel + 1) o).length ≤ s.length :=
        chainIds_length_le s hs (fuel + 1) o
      have h3 := chainIds_length_mono s fuel o
      exact chainIds_eq_of_length_eq s fuel o (by omega)
  intro k
  induction k with
  | zero => rfl
  | succ n ih =>
    have := hone (s.length + n) (Nat.le_add_right _ _)
    rw [show s.length + (n + 1) = s.length + n + 1 from rfl, this, ih]

/-- C4: starting from the entry-marker-only workspace, after every
finite sequence of block creations and snapping operations the
top-level `next` chain reachable from the entry marker contains no block
id more than once, and traversing it terminates within `blockCount`
steps (extra fuel beyond the number of blocks never extends the
traversal). -/
theorem workspace_chain_nodup (ops : List WorkspaceOp) :
    (chainIds (runOps ops) (runOps ops).length
      (entryNextId (runOps ops))).Nodup ∧
    ∀ k, chainIds (runOps ops) ((runOps ops).length + k)
        (entryNextId (runOps ops)) =
      chainIds (runOps ops) (runOps ops).length (entryNextId (runOps ops)) :=
  ⟨chainIds_nodup (runOps ops) (runOps_acyclic ops) (runOps ops).length
      (entryNextId (runOps ops)),
   chainIds_stable (runOps ops) (runOps_acyclic ops)
      (entryNextId (runOps ops))⟩

end Loopy
